import Mathlib

/-!
Verification of the proxy pool engine of the reqwest-proxy-pool crate
against its natural-language specification.

The development is a shallow embedding of the Rust sources:

* src/utils.rs   : parse_proxy_list (source list parsing)
* src/proxy.rs   : Proxy, ProxyStatus, Proxy::success_rate
* src/pool.rs    : ProxyPool::get_proxy, report_proxy_success,
                   report_proxy_failure, and the round robin counter
* src/middleware.rs : ProxyPoolMiddleware::handle (the retry dispatch loop)

Modelling conventions:

* Rust f64 values (success rates, failure ratios, response times) are
  idealised as exact rationals; the source never produces NaN in these
  computations and the compared quantities are ratios of small counters,
  so the idealisation is faithful.
* Rust string operations are modelled on the underlying character lists
  of Lean strings, mirroring the Rust semantics of trim, contains,
  starts_with, is_empty and lines.
* Network and clock effects (the reqwest client, the rate limiter clock,
  Instant) are external inputs; the dispatch loop receives the outcome of
  each attempt from an oracle, and last_check timestamps are omitted
  because no claim mentions them.
-/

namespace ProxyPoolSpec

/-! ## Rust string primitives (modelled on character lists) -/

/-- Rust str::trim: remove leading and trailing whitespace.
Modelled on the character list of the string. -/
def rustTrim (s : String) : String :=
  String.mk (((s.data.dropWhile Char.isWhitespace).reverse.dropWhile
    Char.isWhitespace).reverse)

/-- Rust str::contains with a char pattern. -/
def rustContains (s : String) (c : Char) : Bool :=
  s.data.contains c

/-- Rust str::starts_with with a string pattern. -/
def rustStartsWith (s pre : String) : Bool :=
  pre.data.isPrefixOf s.data

/-- Rust str::is_empty. -/
def rustIsEmpty (s : String) : Bool :=
  s.data.isEmpty

/-- Split a character list at every occurrence of the separator
character; the separators are not kept. -/
def splitOnChar (c : Char) : List Char → List (List Char)
  | [] => [[]]
  | x :: xs =>
    let rest := splitOnChar c xs
    if x = c then [] :: rest
    else
      match rest with
      | [] => [[x]]
      | y :: ys => (x :: y) :: ys

/-- Rust str::lines: split on the newline character, drop a final empty
segment (so a trailing newline does not create an empty last line), and
strip one trailing carriage return from every line. -/
def rustLines (s : String) : List String :=
  let parts := splitOnChar '\n' s.data
  let parts := if parts.getLast? = some [] then parts.dropLast else parts
  parts.map (fun l =>
    String.mk (if l.getLast? = some '\r' then l.dropLast else l))

/-! ## src/utils.rs : parse_proxy_list

Direct translation of the body of parse_proxy_list: for every line of
the content, trim it; keep it if it starts with "socks5://"; otherwise,
if it contains a colon, does not start with a hash and is not empty,
prefix it with "socks5://"; otherwise drop the line. -/

/-- Translation of parse_proxy_list from src/utils.rs. -/
def parse_proxy_list (content : String) : List String :=
  (rustLines content).filterMap (fun line =>
    let line := rustTrim line
    if rustStartsWith line "socks5://" then
      some line
    else if rustContains line ':' && !(rustStartsWith line "#")
        && !(rustIsEmpty line) then
      some ("socks5://" ++ line)
    else
      none)

/-- The per-line classification rule exactly as the specification words
it, with no trimming: a line already prefixed socks5:// is kept
verbatim; a line that contains a colon, is non-empty, and does not start
with a hash is prefixed with socks5://; every other line is discarded.
Used to compare the specification against the source. -/
def specClassifyLine (line : String) : Option String :=
  if rustStartsWith line "socks5://" then
    some line
  else if rustContains line ':' ∧ ¬ (rustIsEmpty line)
      ∧ ¬ (rustStartsWith line "#") then
    some ("socks5://" ++ line)
  else
    none

/-! ## src/proxy.rs : Proxy and ProxyStatus -/

/-- Translation of ProxyStatus from src/proxy.rs. -/
inductive ProxyStatus where
  | Unknown
  | Healthy
  | Unhealthy
deriving DecidableEq, Repr, Inhabited

/-- Translation of Proxy from src/proxy.rs.  The last_check Instant and
the rate limiter handle are omitted: the first is wall clock state no
claim mentions, and rate limiter token grants are recorded as events of
the dispatch trace instead of as bucket state. -/
structure Proxy where
  url : String
  status : ProxyStatus
  success_count : Nat
  failure_count : Nat
  response_time : Option ℚ
deriving DecidableEq, Repr, Inhabited

/-- Translation of Proxy::success_rate from src/proxy.rs:
successCount / (successCount + failureCount), and 0 when the total is 0. -/
def success_rate (p : Proxy) : ℚ :=
  if p.success_count + p.failure_count = 0 then 0
  else (p.success_count : ℚ) / ((p.success_count + p.failure_count : Nat) : ℚ)

/-! ## src/config.rs : selection strategy and the configuration fields
consumed by the embedded control logic -/

/-- Translation of ProxySelectionStrategy from src/config.rs. -/
inductive ProxySelectionStrategy where
  | FastestResponse
  | MostReliable
  | Random
  | RoundRobin
deriving DecidableEq, Repr

/-- The fields of ProxyPoolConfig (src/config.rs) that the embedded
control logic reads: retry_count and selection_strategy.  The remaining
fields (sources, intervals, timeouts, probe URL, min_available_proxies,
max_requests_per_second) parameterise I/O that the claims treat as
external. -/
structure ProxyPoolConfig where
  retry_count : Nat
  selection_strategy : ProxySelectionStrategy
deriving DecidableEq, Repr

/-! ## src/pool.rs : the pool state and its operations -/

/-- The mutable state of ProxyPool (src/pool.rs): the proxy vector and
the round robin counter last_proxy_index. -/
structure PoolState where
  proxies : List Proxy
  last_proxy_index : Nat
deriving DecidableEq, Repr

/-- ProxyPool::new stores last_proxy_index = 0, so the round robin
counter of a fresh pool starts at 0. -/
def initialPoolState (proxies : List Proxy) : PoolState :=
  { proxies := proxies, last_proxy_index := 0 }

/-- Translation of the error type NoProxyAvailable from src/error.rs. -/
inductive NoProxyAvailable where
  | mk
deriving DecidableEq, Repr

/-- The healthy subset get_proxy filters the pool down to. -/
def healthyProxies (st : PoolState) : List Proxy :=
  st.proxies.filter (fun p => p.status = ProxyStatus.Healthy)

/-- Rust Iterator::min_by: the fold of the iterator that keeps the
accumulator unless it compares strictly greater than the next element,
so among equal minima the FIRST element of the list wins. -/
def rustMinBy (cmp : α → α → Ordering) : List α → Option α
  | [] => none
  | a :: as => some (as.foldl (fun acc x =>
      if cmp acc x = Ordering.gt then x else acc) a)

/-- Rust Iterator::max_by: the fold of the iterator that replaces the
accumulator unless it compares strictly greater than the next element,
so among equal maxima the LAST element of the list wins. -/
def rustMaxBy (cmp : α → α → Ordering) : List α → Option α
  | [] => none
  | a :: as => some (as.foldl (fun acc x =>
      if cmp acc x = Ordering.gt then acc else x) a)

/-- The comparator of the FastestResponse arm of get_proxy:
response_time.unwrap_or(f64::MAX).partial_cmp(other).  A proxy with no
recorded latency compares as worst possible, modelled as plus infinity
above every rational. -/
def cmpResponseTime (a b : Option ℚ) : Ordering :=
  match a, b with
  | none, none => Ordering.eq
  | none, some _ => Ordering.gt
  | some _, none => Ordering.lt
  | some x, some y => compare x y

/-- Translation of ProxyPool::get_proxy from src/pool.rs.  The rand
argument models the value drawn by rng.random_range(0..len) in the
Random arm; taking it modulo the healthy count is exactly the
in-range guarantee of random_range.  The returned Nat is the value of
last_proxy_index after the call (only the RoundRobin arm writes it). -/
def get_proxy (strategy : ProxySelectionStrategy) (rand : Nat)
    (st : PoolState) : Except NoProxyAvailable (Proxy × Nat) :=
  let healthy := healthyProxies st
  if healthy.isEmpty then
    Except.error NoProxyAvailable.mk
  else
    match strategy with
    | ProxySelectionStrategy.FastestResponse =>
      match rustMinBy (fun a b => cmpResponseTime a.response_time b.response_time) healthy with
      | some p => Except.ok (p, st.last_proxy_index)
      | none => Except.error NoProxyAvailable.mk
    | ProxySelectionStrategy.MostReliable =>
      match rustMaxBy (fun a b => compare (success_rate a) (success_rate b)) healthy with
      | some p => Except.ok (p, st.last_proxy_index)
      | none => Except.error NoProxyAvailable.mk
    | ProxySelectionStrategy.Random =>
      Except.ok (healthy.getD (rand % healthy.length) default, st.last_proxy_index)
    | ProxySelectionStrategy.RoundRobin =>
      let idx := (st.last_proxy_index + 1) % healthy.length
      Except.ok (healthy.getD idx default, idx)

/-- Translation of ProxyPool::report_proxy_success from src/pool.rs:
find the first proxy with the given URL, increment its success counter
and set its status to Healthy; no match leaves the vector unchanged. -/
def report_proxy_success (url : String) : List Proxy → List Proxy
  | [] => []
  | p :: ps =>
    if p.url = url then
      { p with success_count := p.success_count + 1,
               status := ProxyStatus.Healthy } :: ps
    else
      p :: report_proxy_success url ps

/-- The demotion test of report_proxy_failure on the record with the
already incremented failure counter: failure_ratio > 0.5 and
failure_count >= 3, where failure_ratio = failure_count /
(success_count + failure_count) as the source computes it in f64. -/
def demotionCond (success_count failure_count : Nat) : Prop :=
  (1 : ℚ)/2 <
      (failure_count : ℚ) / ((success_count + failure_count : Nat) : ℚ)
    ∧ 3 ≤ failure_count

instance (s f : Nat) : Decidable (demotionCond s f) := by
  unfold demotionCond; exact inferInstance

/-- Translation of ProxyPool::report_proxy_failure from src/pool.rs:
find the first proxy with the given URL, increment its failure counter,
then compute failure_ratio = failure_count / (success_count +
failure_count) on the incremented record and set the status to Unhealthy
when failure_ratio > 0.5 and failure_count >= 3; no match leaves the
vector unchanged. -/
def report_proxy_failure (url : String) : List Proxy → List Proxy
  | [] => []
  | p :: ps =>
    if p.url = url then
      let p := { p with failure_count := p.failure_count + 1 }
      if demotionCond p.success_count p.failure_count then
        { p with status := ProxyStatus.Unhealthy } :: ps
      else
        p :: ps
    else
      p :: report_proxy_failure url ps

/-! ## src/middleware.rs : the retry dispatch loop

ProxyPoolMiddleware::handle performs I/O at three points of every loop
iteration: cloning the request, the rate limiter wait, and the proxy /
client construction and request execution.  The embedding receives the
outside world as data: replayable says whether req.try_clone() succeeds
(a fixed property of the request body), and the outcome oracle gives,
for every iteration index, which of the three fallible steps of the
attempt fails first, or the response on success.  Errors and responses
are opaque and represented by numeric identifiers. -/

/-- Outcome of the fallible steps of one loop iteration of handle:
to_reqwest_proxy failing, Client::builder().build() failing,
client.execute() failing, or the request succeeding. -/
inductive AttemptOutcome where
  | proxyError (e : Nat)
  | clientBuildError (e : Nat)
  | executionError (e : Nat)
  | success (resp : Nat)
deriving DecidableEq, Repr

/-- The error alternatives handle can return: the middleware error for a
non cloneable request, the middleware error wrapping NoProxyAvailable,
and a reqwest error surfaced from the final failed attempt. -/
inductive HandleError where
  | nonReplayable
  | noProxyAvailable
  | reqwestErr (e : Nat)
deriving DecidableEq, Repr

/-- Observable events of one handle call, in program order per kind:
the URLs whose rate limiter token was acquired, the (URL, error) pairs
passed to report_proxy_failure, and the URLs passed to
report_proxy_success. -/
structure HandleTrace where
  tokens : List String
  failures : List (String × Nat)
  successes : List String
deriving DecidableEq, Repr

/-- Result of one handle call: the returned value, the final pool state
and the event trace. -/
structure HandleResult where
  result : Except HandleError Nat
  state : PoolState
  trace : HandleTrace
deriving Repr

/-- One step of bookkeeping: prepend the events of the current iteration
to the trace of the rest of the loop. -/
def consTrace (tok : String) (fails : List (String × Nat))
    (succs : List String) (r : HandleResult) : HandleResult :=
  { r with trace := { tokens := tok :: r.trace.tokens,
                      failures := fails ++ r.trace.failures,
                      successes := succs ++ r.trace.successes } }

/-- Translation of the loop body of ProxyPoolMiddleware::handle from
src/middleware.rs.  retryCount is the mutable retry_count of the source,
attempt the iteration index feeding the outcome oracle, and fuel a
structural recursion bound.  The loop needs at most
retry_count + 1 - retryCount further iterations because every iteration
either returns or increments retryCount, and handle below supplies
exactly that much fuel; running out of fuel yields none, and
handle_isSome proves none is never reached from the entry point. -/
def handleLoop (cfg : ProxyPoolConfig) (replayable : Bool)
    (outcomes : Nat → AttemptOutcome) (rand : Nat → Nat) :
    Nat → Nat → PoolState → Nat → Option HandleResult
  | _, _, _, 0 => none
  | attempt, retryCount, st, fuel + 1 =>
    match get_proxy cfg.selection_strategy (rand attempt) st with
    | Except.error _ =>
      some { result := Except.error HandleError.noProxyAvailable,
             state := st,
             trace := { tokens := [], failures := [], successes := [] } }
    | Except.ok (proxy, idx) =>
      let st := { st with last_proxy_index := idx }
      if replayable then
        match outcomes attempt with
        | AttemptOutcome.success resp =>
          some { result := Except.ok resp,
                 state := { st with proxies := report_proxy_success proxy.url st.proxies },
                 trace := { tokens := [proxy.url], failures := [],
                            successes := [proxy.url] } }
        | AttemptOutcome.proxyError e =>
          let st := { st with proxies := report_proxy_failure proxy.url st.proxies }
          if cfg.retry_count < retryCount + 1 then
            some { result := Except.error (HandleError.reqwestErr e),
                   state := st,
                   trace := { tokens := [proxy.url], failures := [(proxy.url, e)],
                              successes := [] } }
          else
            (handleLoop cfg replayable outcomes rand (attempt + 1) (retryCount + 1) st fuel).map
              (consTrace proxy.url [(proxy.url, e)] [])
        | AttemptOutcome.clientBuildError e =>
          let st := { st with proxies := report_proxy_failure proxy.url st.proxies }
          if cfg.retry_count < retryCount + 1 then
            some { result := Except.error (HandleError.reqwestErr e),
                   state := st,
                   trace := { tokens := [proxy.url], failures := [(proxy.url, e)],
                              successes := [] } }
          else
            (handleLoop cfg replayable outcomes rand (attempt + 1) (retryCount + 1) st fuel).map
              (consTrace proxy.url [(proxy.url, e)] [])
        | AttemptOutcome.executionError e =>
          let st := { st with proxies := report_proxy_failure proxy.url st.proxies }
          if cfg.retry_count < retryCount + 1 then
            some { result := Except.error (HandleError.reqwestErr e),
                   state := st,
                   trace := { tokens := [proxy.url], failures := [(proxy.url, e)],
                              successes := [] } }
          else
            (handleLoop cfg replayable outcomes rand (attempt + 1) (retryCount + 1) st fuel).map
              (consTrace proxy.url [(proxy.url, e)] [])
      else
        some { result := Except.error HandleError.nonReplayable,
               state := st,
               trace := { tokens := [], failures := [], successes := [] } }

/-- Translation of ProxyPoolMiddleware::handle: run the loop with
retry_count starting at 0.  The fuel retry_count + 1 is exact: the loop
returns no later than the iteration in which retryCount exceeds
cfg.retry_count. -/
def handle (cfg : ProxyPoolConfig) (replayable : Bool)
    (outcomes : Nat → AttemptOutcome) (rand : Nat → Nat)
    (st : PoolState) : Option HandleResult :=
  handleLoop cfg replayable outcomes rand 0 0 st (cfg.retry_count + 1)

/-! ## Helper lemmas on the selection primitives -/

theorem getD_mem_of_lt {α : Type _} :
    ∀ (l : List α) (n : Nat) (d : α), n < l.length → l.getD n d ∈ l := by
  intro l n d h
  rw [List.getD_eq_getElem l d h]
  exact List.getElem_mem h

theorem foldl_choice_mem {α : Type _} (f : α → α → α)
    (hf : ∀ a b, f a b = a ∨ f a b = b) :
    ∀ (l : List α) (a : α), l.foldl f a ∈ a :: l := by
  intro l
  induction l with
  | nil => intro a; simp
  | cons x xs ih =>
    intro a
    rw [List.foldl_cons]
    rcases List.mem_cons.1 (ih (f a x)) with h2 | h2
    · rw [h2]
      rcases hf a x with h1 | h1 <;> rw [h1] <;> simp
    · simp [h2]

theorem rustMinBy_mem {α : Type _} (cmp : α → α → Ordering) (l : List α)
    (m : α) (h : rustMinBy cmp l = some m) : m ∈ l := by
  cases l with
  | nil => simp [rustMinBy] at h
  | cons a as =>
    simp only [rustMinBy, Option.some.injEq] at h
    subst h
    exact foldl_choice_mem _ (fun a b => by by_cases hc : cmp a b = Ordering.gt <;> simp [hc]) as a

theorem rustMaxBy_mem {α : Type _} (cmp : α → α → Ordering) (l : List α)
    (m : α) (h : rustMaxBy cmp l = some m) : m ∈ l := by
  cases l with
  | nil => simp [rustMaxBy] at h
  | cons a as =>
    simp only [rustMaxBy, Option.some.injEq] at h
    subst h
    exact foldl_choice_mem _ (fun a b => by by_cases hc : cmp a b = Ordering.gt <;> simp [hc]) as a

/-- On a non-empty pool of healthy proxies get_proxy always succeeds,
and whatever it returns was drawn from the healthy subset. -/
theorem get_proxy_ok_mem (strategy : ProxySelectionStrategy) (rand : Nat)
    (st : PoolState) (pr : Proxy × Nat)
    (h : get_proxy strategy rand st = Except.ok pr) :
    pr.1 ∈ healthyProxies st := by
  unfold get_proxy at h
  by_cases he : (healthyProxies st).isEmpty
  · simp [he] at h
  · simp only [he, Bool.false_eq_true, if_false] at h
    have hne : healthyProxies st ≠ [] := by simpa using he
    have hlen : 0 < (healthyProxies st).length := List.length_pos.2 hne
    cases strategy with
    | FastestResponse =>
      rcases hmin : rustMinBy
          (fun a b => cmpResponseTime a.response_time b.response_time)
          (healthyProxies st) with _ | m
      · rw [hmin] at h; simp at h
      · rw [hmin] at h
        simp only [Except.ok.injEq] at h
        subst h
        exact rustMinBy_mem _ _ _ hmin
    | MostReliable =>
      rcases hmax : rustMaxBy
          (fun a b => compare (success_rate a) (success_rate b))
          (healthyProxies st) with _ | m
      · rw [hmax] at h; simp at h
      · rw [hmax] at h
        simp only [Except.ok.injEq] at h
        subst h
        exact rustMaxBy_mem _ _ _ hmax
    | Random =>
      simp only [Except.ok.injEq] at h
      subst h
      exact getD_mem_of_lt _ _ _ (Nat.mod_lt _ hlen)
    | RoundRobin =>
      simp only [Except.ok.injEq] at h
      subst h
      exact getD_mem_of_lt _ _ _ (Nat.mod_lt _ hlen)

theorem get_proxy_empty (strategy : ProxySelectionStrategy) (rand : Nat)
    (st : PoolState) (h : healthyProxies st = []) :
    get_proxy strategy rand st = Except.error NoProxyAvailable.mk := by
  unfold get_proxy
  simp [h]

theorem get_proxy_ne_error (strategy : ProxySelectionStrategy) (rand : Nat)
    (st : PoolState) (h : healthyProxies st ≠ []) :
    ∃ pr, get_proxy strategy rand st = Except.ok pr := by
  unfold get_proxy
  have he : (healthyProxies st).isEmpty = false := by simpa using h
  simp only [he, Bool.false_eq_true, if_false]
  cases strategy with
  | FastestResponse =>
    rcases hl : healthyProxies st with _ | ⟨a, as⟩
    · exact absurd hl h
    · exact ⟨_, rfl⟩
  | MostReliable =>
    rcases hl : healthyProxies st with _ | ⟨a, as⟩
    · exact absurd hl h
    · exact ⟨_, rfl⟩
  | Random => exact ⟨_, rfl⟩
  | RoundRobin => exact ⟨_, rfl⟩

/-! ## Claim C3 -/

/-- C3: for every pool state and every configured selection strategy
(FastestResponse, MostReliable, Random, RoundRobin), get_proxy returns
the NoProxyAvailable error if and only if the subset of proxies with
status Healthy is empty, and when that subset is non-empty it returns a
proxy belonging to it. -/
theorem C3_get_proxy_error_iff_no_healthy (strategy : ProxySelectionStrategy)
    (rand : Nat) (st : PoolState) :
    (get_proxy strategy rand st = Except.error NoProxyAvailable.mk
      ↔ healthyProxies st = [])
    ∧ (∀ pr, get_proxy strategy rand st = Except.ok pr →
        pr.1 ∈ healthyProxies st) := by
  constructor
  · constructor
    · intro herr
      by_contra hne
      rcases get_proxy_ne_error strategy rand st hne with ⟨pr, hok⟩
      rw [hok] at herr
      exact Except.noConfusion herr
    · intro hempty
      exact get_proxy_empty strategy rand st hempty
  · intro pr hok
    exact get_proxy_ok_mem strategy rand st pr hok

def c3P : Proxy :=
  { url := "w3", status := ProxyStatus.Healthy, success_count := 0,
    failure_count := 0, response_time := none }

/-- Witness for C3 at a concrete pool with one healthy proxy. -/
theorem C3_witness :
    (c3P, 0).1 ∈ healthyProxies (PoolState.mk [c3P] 0) :=
  (C3_get_proxy_error_iff_no_healthy ProxySelectionStrategy.RoundRobin 0
    (PoolState.mk [c3P] 0)).2 (c3P, 0) (by rfl)

/-! ## Claim C4 -/

def c4P0 : Proxy :=
  { url := "p0", status := ProxyStatus.Healthy, success_count := 0,
    failure_count := 0, response_time := none }

def c4P1 : Proxy :=
  { url := "p1", status := ProxyStatus.Healthy, success_count := 0,
    failure_count := 0, response_time := none }

def c4P2 : Proxy :=
  { url := "p2", status := ProxyStatus.Healthy, success_count := 0,
    failure_count := 0, response_time := none }

/-- C4: under RoundRobin the shared counter starts at 0 (a fresh pool
stores last_proxy_index = 0) and every call advances the counter before
indexing, modulo the current healthy count; over the fixed healthy set
[P0, P1, P2], threading the returned counter through four successive
calls yields P1, P2, P0, P1: the first call returns index 1, and index 0
is only revisited after a full cycle. -/
theorem C4_round_robin_sequence :
    (initialPoolState [c4P0, c4P1, c4P2]).last_proxy_index = 0
    ∧ get_proxy ProxySelectionStrategy.RoundRobin 0
        (PoolState.mk [c4P0, c4P1, c4P2] 0) = Except.ok (c4P1, 1)
    ∧ get_proxy ProxySelectionStrategy.RoundRobin 0
        (PoolState.mk [c4P0, c4P1, c4P2] 1) = Except.ok (c4P2, 2)
    ∧ get_proxy ProxySelectionStrategy.RoundRobin 0
        (PoolState.mk [c4P0, c4P1, c4P2] 2) = Except.ok (c4P0, 0)
    ∧ get_proxy ProxySelectionStrategy.RoundRobin 0
        (PoolState.mk [c4P0, c4P1, c4P2] 0) = Except.ok (c4P1, 1)
    ∧ ∀ (rand : Nat) (st : PoolState), healthyProxies st ≠ [] →
        get_proxy ProxySelectionStrategy.RoundRobin rand st
          = Except.ok
              ((healthyProxies st).getD
                ((st.last_proxy_index + 1) % (healthyProxies st).length) default,
               (st.last_proxy_index + 1) % (healthyProxies st).length) := by
  refine ⟨rfl, rfl, rfl, rfl, rfl, ?_⟩
  intro rand st h
  have he : (healthyProxies st).isEmpty = false := by simpa using h
  unfold get_proxy
  simp [he]

/-- Witness for the universally quantified conjunct of C4 at a concrete
two-proxy state. -/
theorem C4_witness :
    get_proxy ProxySelectionStrategy.RoundRobin 7
      (PoolState.mk [c4P0, c4P1] 0)
      = Except.ok
          ((healthyProxies (PoolState.mk [c4P0, c4P1] 0)).getD
            ((0 + 1) % (healthyProxies (PoolState.mk [c4P0, c4P1] 0)).length) default,
           (0 + 1) % (healthyProxies (PoolState.mk [c4P0, c4P1] 0)).length) :=
  C4_round_robin_sequence.2.2.2.2.2 7 (PoolState.mk [c4P0, c4P1] 0) (by decide)

/-! ## Claims C1, C2 and C9 : outcome reporting -/

/-- The float comparison failure_ratio > 0.5 on a record with a positive
failure counter is exactly success_count < failure_count. -/
theorem half_lt_ratio_iff (s f : Nat) (hf : 0 < f) :
    ((1:ℚ)/2 < (f : ℚ) / ((s + f : Nat) : ℚ)) ↔ s < f := by
  have hpos : (0:ℚ) < ((s + f : Nat) : ℚ) := by
    exact_mod_cast Nat.pos_of_ne_zero (by omega)
  rw [div_lt_div_iff₀ (by norm_num) hpos]
  push_cast
  constructor
  · intro h
    have hq : (s:ℚ) < (f:ℚ) := by linarith
    exact_mod_cast hq
  · intro h
    have hq : (s:ℚ) < (f:ℚ) := by exact_mod_cast h
    linarith

/-- Counter form of the demotion condition. -/
theorem demotionCond_iff (s f : Nat) (hf : 0 < f) :
    demotionCond s f ↔ (s < f ∧ 3 ≤ f) := by
  unfold demotionCond
  rw [half_lt_ratio_iff s f hf]

/-- The relation claim C1 (as amended) asserts between a registered
proxy and its image under report_proxy_failure with its URL: the failure
counter grows by exactly one, the success counter, URL and response time
are untouched, the status afterwards is Unhealthy exactly when the
demotion condition holds on the incremented counters OR the status was
already Unhealthy before the call, and when the demotion condition fails
the status is left unchanged.  Records with a different URL are left
exactly as they were. -/
def failureSpecRel (url : String) (p q : Proxy) : Prop :=
  if p.url = url then
    q.url = p.url
    ∧ q.failure_count = p.failure_count + 1
    ∧ q.success_count = p.success_count
    ∧ q.response_time = p.response_time
    ∧ (q.status = ProxyStatus.Unhealthy ↔
        demotionCond p.success_count (p.failure_count + 1)
        ∨ p.status = ProxyStatus.Unhealthy)
    ∧ (¬ demotionCond p.success_count (p.failure_count + 1) →
        q.status = p.status)
  else q = p

def c1Cex : Proxy :=
  { url := "u1", status := ProxyStatus.Unhealthy, success_count := 10,
    failure_count := 0, response_time := none }

/-- C1 counterexample: a proxy that is already Unhealthy (e.g. demoted
by a failed health check round) with 10 successes and 0 failures.
report_proxy_failure increments the failure counter to 1, the demotion
condition 3 <= 1 and 1/11 > 1/2 is false, so the status is left
unchanged at Unhealthy — yet the claimed iff demands it not be Unhealthy
because the condition fails. -/
theorem C1_counterexample :
    report_proxy_failure "u1" [c1Cex] = [{ c1Cex with failure_count := 1 }]
    ∧ ({ c1Cex with failure_count := 1 } : Proxy).status = ProxyStatus.Unhealthy
    ∧ ¬ demotionCond 10 1 := by
  refine ⟨?_, rfl, ?_⟩
  · norm_num [report_proxy_failure, demotionCond, c1Cex]
  · rw [demotionCond_iff 10 1 (by omega)]
    decide

/-- C1 (amended): in a pool whose URLs are pairwise distinct (the
registry invariant), report_proxy_failure relates every registered proxy
to its updated record by failureSpecRel: failureCount grows by exactly
1, successCount is never modified, and afterwards the status is
Unhealthy iff the demotion condition (failureCount >= 3 and
failureCount/(successCount+failureCount) > 0.5, on the incremented
counters) holds or the proxy was already Unhealthy; when the condition
fails the status is left unchanged. -/
theorem C1_report_failure_spec (ps : List Proxy) (url : String)
    (hnd : (ps.map Proxy.url).Nodup) :
    List.Forall₂ (failureSpecRel url) ps (report_proxy_failure url ps) := by
  induction ps with
  | nil => exact List.Forall₂.nil
  | cons p ps ih =>
    simp only [List.map_cons, List.nodup_cons] at hnd
    rw [report_proxy_failure]
    by_cases hp : p.url = url
    · rw [if_pos hp]
      have htail : List.Forall₂ (failureSpecRel url) ps ps := by
        refine List.forall₂_same.2 ?_
        intro x hx
        have hxu : x.url ≠ url := by
          intro hxe
          apply hnd.1
          have hxp : x.url = p.url := by rw [hxe, hp]
          rw [← hxp]
          exact List.mem_map_of_mem Proxy.url hx
        unfold failureSpecRel
        rw [if_neg hxu]
      by_cases hc : demotionCond p.success_count (p.failure_count + 1)
      · rw [if_pos hc]
        refine List.Forall₂.cons ?_ htail
        unfold failureSpecRel
        rw [if_pos hp]
        exact ⟨rfl, rfl, rfl, rfl, by simp [hc], fun hnc => absurd hc hnc⟩
      · rw [if_neg hc]
        refine List.Forall₂.cons ?_ htail
        unfold failureSpecRel
        rw [if_pos hp]
        refine ⟨rfl, rfl, rfl, rfl, ?_, fun _ => rfl⟩
        simp only [hc, false_or]
    · rw [if_neg hp]
      refine List.Forall₂.cons ?_ (ih hnd.2)
      unfold failureSpecRel
      rw [if_neg hp]

def c1W : Proxy :=
  { url := "w1", status := ProxyStatus.Healthy, success_count := 1,
    failure_count := 2, response_time := none }

def c1W2 : Proxy :=
  { url := "x1", status := ProxyStatus.Unknown, success_count := 0,
    failure_count := 0, response_time := none }

/-- Witness for C1 at a concrete two-proxy pool. -/
theorem C1_witness :
    List.Forall₂ (failureSpecRel "w1") [c1W, c1W2]
      (report_proxy_failure "w1" [c1W, c1W2]) :=
  C1_report_failure_spec [c1W, c1W2] "w1" (by decide)

/-- The relation claim C2 asserts between a registered proxy and its
image under report_proxy_success with its URL: the success counter grows
by exactly one, the other fields are untouched, and the status is set to
Healthy unconditionally.  Records with a different URL are left exactly
as they were. -/
def successSpecRel (url : String) (p q : Proxy) : Prop :=
  if p.url = url then
    q.url = p.url
    ∧ q.success_count = p.success_count + 1
    ∧ q.failure_count = p.failure_count
    ∧ q.response_time = p.response_time
    ∧ q.status = ProxyStatus.Healthy
  else q = p

/-- C2: in a pool whose URLs are pairwise distinct, report_proxy_success
increments the success counter of the named proxy by exactly 1 and
unconditionally sets its status to Healthy, whatever the prior status
(Unknown, Healthy or Unhealthy) was; since get_proxy draws from the
proxies with status Healthy, a proxy demoted to Unhealthy is eligible
for selection again after this single success. -/
theorem C2_report_success_spec (ps : List Proxy) (url : String)
    (hnd : (ps.map Proxy.url).Nodup) :
    List.Forall₂ (successSpecRel url) ps (report_proxy_success url ps) := by
  induction ps with
  | nil => exact List.Forall₂.nil
  | cons p ps ih =>
    simp only [List.map_cons, List.nodup_cons] at hnd
    rw [report_proxy_success]
    by_cases hp : p.url = url
    · rw [if_pos hp]
      refine List.Forall₂.cons ?_ ?_
      · unfold successSpecRel
        rw [if_pos hp]
        exact ⟨rfl, rfl, rfl, rfl, rfl⟩
      · refine List.forall₂_same.2 ?_
        intro x hx
        have hxu : x.url ≠ url := by
          intro hxe
          apply hnd.1
          have hxp : x.url = p.url := by rw [hxe, hp]
          rw [← hxp]
          exact List.mem_map_of_mem Proxy.url hx
        unfold successSpecRel
        rw [if_neg hxu]
    · rw [if_neg hp]
      refine List.Forall₂.cons ?_ (ih hnd.2)
      unfold successSpecRel
      rw [if_neg hp]

def c2W : Proxy :=
  { url := "w2", status := ProxyStatus.Unhealthy, success_count := 0,
    failure_count := 5, response_time := none }

/-- Witness for C2 at a concrete pool holding one Unhealthy proxy. -/
theorem C2_witness :
    List.Forall₂ (successSpecRel "w2") [c2W]
      (report_proxy_success "w2" [c2W]) :=
  C2_report_success_spec [c2W] "w2" (by decide)

/-- C9: reporting an outcome for a URL no registered proxy carries is a
silent no-op: both report functions return the registry unchanged, and
their return type offers no error channel to the caller. -/
theorem C9_report_unknown_noop (ps : List Proxy) (url : String)
    (h : ∀ p ∈ ps, p.url ≠ url) :
    report_proxy_success url ps = ps ∧ report_proxy_failure url ps = ps := by
  induction ps with
  | nil => exact ⟨rfl, rfl⟩
  | cons p ps ih =>
    have hp : p.url ≠ url := h p (List.mem_cons_self p ps)
    have ht : ∀ q ∈ ps, q.url ≠ url := fun q hq => h q (List.mem_cons_of_mem p hq)
    rcases ih ht with ⟨h1, h2⟩
    constructor
    · rw [report_proxy_success, if_neg hp, h1]
    · rw [report_proxy_failure, if_neg hp, h2]

/-- Witness for C9: reporting against an unknown URL leaves a concrete
pool untouched. -/
theorem C9_witness :
    report_proxy_success "zz" [c1W, c1W2] = [c1W, c1W2]
    ∧ report_proxy_failure "zz" [c1W, c1W2] = [c1W, c1W2] :=
  C9_report_unknown_noop [c1W, c1W2] "zz" (by decide)

/-! ## Claim C5 : MostReliable and the max_by tie break -/

/-- The fold underlying Iterator::max_by splits its input as
l₁ ++ result :: l₂ where the result carries the maximal key and every
element AFTER the result has a strictly smaller key: the result is the
last maximiser in iteration order. -/
theorem foldl_max_decomp (key : α → ℚ) :
    ∀ (xs : List α) (a : α),
      ∃ l₁ l₂,
        a :: xs
          = l₁ ++ (xs.foldl (fun acc x =>
              if compare (key acc) (key x) = Ordering.gt then acc else x) a) :: l₂
        ∧ (∀ q ∈ a :: xs, key q ≤ key (xs.foldl (fun acc x =>
              if compare (key acc) (key x) = Ordering.gt then acc else x) a))
        ∧ (∀ q ∈ l₂, key q < key (xs.foldl (fun acc x =>
              if compare (key acc) (key x) = Ordering.gt then acc else x) a)) := by
  intro xs
  induction xs with
  | nil =>
    intro a
    exact ⟨[], [], rfl, by simp, by simp⟩
  | cons x xs ih =>
    intro a
    simp only [List.foldl_cons]
    obtain ⟨m₁, m₂, hdec, hmax, hstrict⟩ :=
      ih (if compare (key a) (key x) = Ordering.gt then a else x)
    by_cases hgt : compare (key a) (key x) = Ordering.gt
    · have hxa : key x < key a := compare_gt_iff_gt.1 hgt
      rw [if_pos hgt] at hdec hmax hstrict ⊢
      have har : key a ≤ key (xs.foldl (fun acc x =>
          if compare (key acc) (key x) = Ordering.gt then acc else x) a) :=
        hmax a (List.mem_cons_self a xs)
      cases m₁ with
      | nil =>
        simp only [List.nil_append, List.cons.injEq] at hdec
        refine ⟨[], x :: xs, ?_, ?_, ?_⟩
        · rw [List.nil_append, ← hdec.1]
        · intro q hq
          rcases List.mem_cons.1 hq with h | h
          · subst h; exact har
          · rcases List.mem_cons.1 h with h | h
            · subst h; exact le_trans (le_of_lt hxa) har
            · exact hmax q (List.mem_cons_of_mem a h)
        · intro q hq
          rcases List.mem_cons.1 hq with h | h
          · subst h
            rw [← hdec.1]
            exact hxa
          · exact hstrict q (hdec.2 ▸ h)
      | cons b m₁' =>
        simp only [List.cons_append, List.cons.injEq] at hdec
        refine ⟨a :: x :: m₁', m₂, ?_, ?_, ?_⟩
        · exact congrArg (fun t => a :: x :: t) hdec.2
        · intro q hq
          rcases List.mem_cons.1 hq with h | h
          · subst h; exact har
          · rcases List.mem_cons.1 h with h | h
            · subst h; exact le_trans (le_of_lt hxa) har
            · exact hmax q (List.mem_cons_of_mem a h)
        · exact hstrict
    · have hax : key a ≤ key x := le_of_not_lt (fun hlt =>
        hgt (compare_gt_iff_gt.2 hlt))
      rw [if_neg hgt] at hdec hmax hstrict ⊢
      refine ⟨a :: m₁, m₂, ?_, ?_, ?_⟩
      · rw [List.cons_append, ← hdec]
      · intro q hq
        rcases List.mem_cons.1 hq with h | h
        · subst h
          exact le_trans hax (hmax x (List.mem_cons_self x xs))
        · exact hmax q h
      · exact hstrict

/-- Iterator::max_by over a comparison by key returns the LAST maximal
element: the input splits as l₁ ++ m :: l₂ where m has maximal key and
everything after m is strictly smaller. -/
theorem rustMaxBy_last_argmax (key : α → ℚ) (l : List α) (m : α)
    (h : rustMaxBy (fun a b => compare (key a) (key b)) l = some m) :
    ∃ l₁ l₂, l = l₁ ++ m :: l₂
      ∧ (∀ q ∈ l, key q ≤ key m)
      ∧ (∀ q ∈ l₂, key q < key m) := by
  cases l with
  | nil => simp [rustMaxBy] at h
  | cons a as =>
    simp only [rustMaxBy, Option.some.injEq] at h
    subst h
    exact foldl_max_decomp key as a

def c5A : Proxy :=
  { url := "A", status := ProxyStatus.Healthy, success_count := 0,
    failure_count := 0, response_time := none }

def c5B : Proxy :=
  { url := "B", status := ProxyStatus.Healthy, success_count := 0,
    failure_count := 0, response_time := none }

/-- C5 counterexample: with the healthy proxies A and B sharing the
maximal successRate (both 0), the claim picks the first in iteration
order, A; but get_proxy under MostReliable returns B, because Rust
Iterator::max_by keeps the LAST of equally maximal elements. -/
theorem C5_counterexample :
    success_rate c5A = success_rate c5B
    ∧ c5A ≠ c5B
    ∧ healthyProxies (PoolState.mk [c5A, c5B] 0) = [c5A, c5B]
    ∧ get_proxy ProxySelectionStrategy.MostReliable 0
        (PoolState.mk [c5A, c5B] 0) = Except.ok (c5B, 0) :=
  ⟨rfl, by decide, rfl, rfl⟩

/-- C5 (amended): under MostReliable, get_proxy on a non-empty healthy
subset returns a proxy m of maximal successRate, and when several
healthy proxies share the maximal successRate it returns the LAST such
proxy in iteration order: the healthy list splits as l₁ ++ m :: l₂ with
every element of l₂ of strictly smaller successRate. -/
theorem C5_most_reliable_spec (rand : Nat) (st : PoolState)
    (h : healthyProxies st ≠ []) :
    ∃ m l₁ l₂,
      get_proxy ProxySelectionStrategy.MostReliable rand st
        = Except.ok (m, st.last_proxy_index)
      ∧ healthyProxies st = l₁ ++ m :: l₂
      ∧ (∀ q ∈ healthyProxies st, success_rate q ≤ success_rate m)
      ∧ (∀ q ∈ l₂, success_rate q < success_rate m) := by
  have hsome : ∃ r, rustMaxBy (fun a b => compare (success_rate a) (success_rate b))
      (healthyProxies st) = some r := by
    rcases hl : healthyProxies st with _ | ⟨a, as⟩
    · exact absurd hl h
    · exact ⟨_, rfl⟩
  obtain ⟨r, hr⟩ := hsome
  have he : (healthyProxies st).isEmpty = false := by simpa using h
  have hok : get_proxy ProxySelectionStrategy.MostReliable rand st
      = Except.ok (r, st.last_proxy_index) := by
    unfold get_proxy
    simp [he, hr]
  obtain ⟨l₁, l₂, hdec, hmax, hstrict⟩ := rustMaxBy_last_argmax success_rate _ r hr
  exact ⟨r, l₁, l₂, hok, hdec, hmax, hstrict⟩

def c5W1 : Proxy :=
  { url := "m1", status := ProxyStatus.Healthy, success_count := 3,
    failure_count := 0, response_time := none }

def c5W2 : Proxy :=
  { url := "m2", status := ProxyStatus.Unknown, success_count := 9,
    failure_count := 0, response_time := none }

/-- Witness for C5 at a concrete pool whose healthy subset is the
singleton m1. -/
theorem C5_witness :
    ∃ m l₁ l₂,
      get_proxy ProxySelectionStrategy.MostReliable 3
          (PoolState.mk [c5W1, c5W2] 4)
        = Except.ok (m, (PoolState.mk [c5W1, c5W2] 4).last_proxy_index)
      ∧ healthyProxies (PoolState.mk [c5W1, c5W2] 4) = l₁ ++ m :: l₂
      ∧ (∀ q ∈ healthyProxies (PoolState.mk [c5W1, c5W2] 4),
          success_rate q ≤ success_rate m)
      ∧ (∀ q ∈ l₂, success_rate q < success_rate m) :=
  C5_most_reliable_spec 3 (PoolState.mk [c5W1, c5W2] 4) (by decide)

/-! ## Claims C8 and C10 : source list parsing -/

/-- Pointwise bridge between the classification the source performs on a
trimmed line and the specification rule (which lists its conditions in a
different order): they agree on every string. -/
theorem classify_pointwise (t : String) :
    (if rustStartsWith t "socks5://" then some t
     else if rustContains t ':' && !(rustStartsWith t "#")
         && !(rustIsEmpty t) then some ("socks5://" ++ t)
     else none)
    = specClassifyLine t := by
  unfold specClassifyLine
  by_cases h1 : rustStartsWith t "socks5://"
  · simp [h1]
  · by_cases h2 : rustContains t ':' <;>
      by_cases h3 : rustStartsWith t "#" <;>
      by_cases h4 : rustIsEmpty t <;>
      simp [h1, h2, h3, h4]

/-- C8 counterexample: the single-line content socks5://a:1 followed by
a space.  The raw line starts with socks5://, so the claim keeps it
verbatim (with its trailing space); the code trims the line first and
returns it without the space. -/
theorem C8_counterexample :
    rustStartsWith "socks5://a:1 " "socks5://" = true
    ∧ rustLines "socks5://a:1 " = ["socks5://a:1 "]
    ∧ (rustLines "socks5://a:1 ").filterMap specClassifyLine
        = ["socks5://a:1 "]
    ∧ parse_proxy_list "socks5://a:1 " = ["socks5://a:1"]
    ∧ ("socks5://a:1" : String) ≠ "socks5://a:1 " := by
  refine ⟨by decide, by decide, by decide, by decide, by decide⟩

/-- C8 (amended): for every input text, parse_proxy_list applies the
specification classification rule to the whitespace-TRIMMED form of each
line — keeping trimmed lines already prefixed socks5://, prefixing
socks5:// to trimmed lines that contain a colon, are non-empty and do
not start with a hash, and discarding all other lines — preserving line
order; in particular the five example lines of the claim yield exactly
the two URLs it lists. -/
theorem C8_parse_spec (content : String) :
    parse_proxy_list content
      = (rustLines content).filterMap (fun line => specClassifyLine (rustTrim line))
    ∧ parse_proxy_list
        "socks5://1.2.3.4:1080\n5.6.7.8:1081\n# comment\n\nno-colon-here"
      = ["socks5://1.2.3.4:1080", "socks5://5.6.7.8:1081"] := by
  constructor
  · unfold parse_proxy_list
    apply List.filterMap_congr
    intro line _
    exact classify_pointwise (rustTrim line)
  · decide

/-- C10: parse_proxy_list trims leading and trailing whitespace from
every line before applying the classification rules: it equals the
classification applied to the trimmed lines; a whitespace-only line is
discarded, and a line with surrounding whitespace around host:port
yields a URL without any surrounding whitespace. -/
theorem C10_parse_trims (content : String) :
    parse_proxy_list content
      = ((rustLines content).map rustTrim).filterMap specClassifyLine
    ∧ parse_proxy_list "  5.6.7.8:1081  " = ["socks5://5.6.7.8:1081"]
    ∧ parse_proxy_list " \t " = []
    ∧ rustTrim "  5.6.7.8:1081  " = "5.6.7.8:1081" := by
  refine ⟨?_, by decide, by decide, by decide⟩
  rw [List.filterMap_map]
  unfold parse_proxy_list
  apply List.filterMap_congr
  intro line _
  exact classify_pointwise (rustTrim line)

/-! ## Claims C6 and C7 : the dispatch loop -/

/-- Master induction on the dispatch loop.  Under the loop invariant
(retryCount at most retry_count, and enough fuel to reach the retry
bound) the loop always returns; the number of attempts — recorded
failures plus recorded successes — is at most the fuel; and when it
returns a reqwest error, that error is the one of the LAST recorded
failure and the loop performed exactly retry_count + 1 - retryCount
failing attempts. -/
theorem handleLoop_spec (cfg : ProxyPoolConfig) (replayable : Bool)
    (outcomes : Nat → AttemptOutcome) (rand : Nat → Nat) :
    ∀ (fuel attempt retryCount : Nat) (st : PoolState),
      retryCount ≤ cfg.retry_count →
      cfg.retry_count + 1 ≤ retryCount + fuel →
      ∃ res,
        handleLoop cfg replayable outcomes rand attempt retryCount st fuel = some res
        ∧ res.trace.failures.length + res.trace.successes.length ≤ fuel
        ∧ (∀ e, res.result = Except.error (HandleError.reqwestErr e) →
            res.trace.failures.length = cfg.retry_count + 1 - retryCount
            ∧ res.trace.failures.getLast?.map Prod.snd = some e) := by
  intro fuel
  induction fuel with
  | zero =>
    intro attempt retryCount st h1 h2
    omega
  | succ fuel ih =>
    intro attempt retryCount st h1 h2
    rw [handleLoop]
    cases hgp : get_proxy cfg.selection_strategy (rand attempt) st with
    | error err =>
      refine ⟨_, rfl, by simp, ?_⟩
      intro e hre
      simp at hre
    | ok pr =>
      obtain ⟨proxy, idx⟩ := pr
      simp only []
      by_cases hrep : replayable = true
      · rw [if_pos hrep]
        cases hout : outcomes attempt with
        | success resp =>
          refine ⟨_, rfl, by simp, ?_⟩
          intro e hre
          simp at hre
        | proxyError e =>
          simp only []
          by_cases hstop : cfg.retry_count < retryCount + 1
          · rw [if_pos hstop]
            refine ⟨_, rfl, by simp, ?_⟩
            intro e' hre
            simp only [Except.error.injEq, HandleError.reqwestErr.injEq] at hre
            subst hre
            constructor
            · simp only [List.length_singleton]
              omega
            · simp
          · rw [if_neg hstop]
            obtain ⟨res, hres, hlen, hq⟩ :=
              ih (attempt + 1) (retryCount + 1) _ (by omega) (by omega)
            rw [hres]
            refine ⟨_, rfl, ?_, ?_⟩
            · simp only [consTrace, List.length_cons, List.length_append,
                List.length_nil]
              omega
            · intro e' hre
              simp only [consTrace] at hre
              obtain ⟨hl2, hlast⟩ := hq e' hre
              constructor
              · simp only [consTrace, List.cons_append, List.nil_append,
                  List.length_cons]
                omega
              · simp only [consTrace, List.cons_append, List.nil_append]
                rcases hfl : res.trace.failures with _ | ⟨f0, fs⟩
                · rw [hfl] at hl2
                  simp at hl2
                  omega
                · rw [hfl] at hlast
                  rw [List.getLast?_cons_cons]
                  exact hlast
        | clientBuildError e =>
          simp only []
          by_cases hstop : cfg.retry_count < retryCount + 1
          · rw [if_pos hstop]
            refine ⟨_, rfl, by simp, ?_⟩
            intro e' hre
            simp only [Except.error.injEq, HandleError.reqwestErr.injEq] at hre
            subst hre
            constructor
            · simp only [List.length_singleton]
              omega
            · simp
          · rw [if_neg hstop]
            obtain ⟨res, hres, hlen, hq⟩ :=
              ih (attempt + 1) (retryCount + 1) _ (by omega) (by omega)
            rw [hres]
            refine ⟨_, rfl, ?_, ?_⟩
            · simp only [consTrace, List.length_cons, List.length_append,
                List.length_nil]
              omega
            · intro e' hre
              simp only [consTrace] at hre
              obtain ⟨hl2, hlast⟩ := hq e' hre
              constructor
              · simp only [consTrace, List.cons_append, List.nil_append,
                  List.length_cons]
                omega
              · simp only [consTrace, List.cons_append, List.nil_append]
                rcases hfl : res.trace.failures with _ | ⟨f0, fs⟩
                · rw [hfl] at hl2
                  simp at hl2
                  omega
                · rw [hfl] at hlast
                  rw [List.getLast?_cons_cons]
                  exact hlast
        | executionError e =>
          simp only []
          by_cases hstop : cfg.retry_count < retryCount + 1
          · rw [if_pos hstop]
            refine ⟨_, rfl, by simp, ?_⟩
            intro e' hre
            simp only [Except.error.injEq, HandleError.reqwestErr.injEq] at hre
            subst hre
            constructor
            · simp only [List.length_singleton]
              omega
            · simp
          · rw [if_neg hstop]
            obtain ⟨res, hres, hlen, hq⟩ :=
              ih (attempt + 1) (retryCount + 1) _ (by omega) (by omega)
            rw [hres]
            refine ⟨_, rfl, ?_, ?_⟩
            · simp only [consTrace, List.length_cons, List.length_append,
                List.length_nil]
              omega
            · intro e' hre
              simp only [consTrace] at hre
              obtain ⟨hl2, hlast⟩ := hq e' hre
              constructor
              · simp only [consTrace, List.cons_append, List.nil_append,
                  List.length_cons]
                omega
              · simp only [consTrace, List.cons_append, List.nil_append]
                rcases hfl : res.trace.failures with _ | ⟨f0, fs⟩
                · rw [hfl] at hl2
                  simp at hl2
                  omega
                · rw [hfl] at hlast
                  rw [List.getLast?_cons_cons]
                  exact hlast
      · rw [if_neg hrep]
        refine ⟨_, rfl, by simp, ?_⟩
        intro e hre
        simp at hre

/-- C6: for every dispatched request, handle performs at most
retry_count + 1 per-proxy attempts (each recording a failure or a
success on the chosen proxy), and when it returns a reqwest error that
error is the underlying error of the final failed attempt — after
exactly retry_count + 1 attempts, with no distinct synthetic
retries-exhausted error (the only other returns are the immediate
NoProxyAvailable and non-replayable middleware errors). -/
theorem C6_handle_retry_bound (cfg : ProxyPoolConfig) (replayable : Bool)
    (outcomes : Nat → AttemptOutcome) (rand : Nat → Nat) (st : PoolState) :
    (handle cfg replayable outcomes rand st).isSome = true
    ∧ ∀ res, handle cfg replayable outcomes rand st = some res →
        res.trace.failures.length + res.trace.successes.length ≤ cfg.retry_count + 1
        ∧ ∀ e, res.result = Except.error (HandleError.reqwestErr e) →
            res.trace.failures.length = cfg.retry_count + 1
            ∧ res.trace.failures.getLast?.map Prod.snd = some e := by
  obtain ⟨res, hres, hlen, hq⟩ := handleLoop_spec cfg replayable outcomes rand
    (cfg.retry_count + 1) 0 0 st (by omega) (by omega)
  constructor
  · rw [handle, hres]
    rfl
  · intro r hr
    rw [handle, hres, Option.some.injEq] at hr
    subst hr
    refine ⟨hlen, ?_⟩
    intro e hre
    obtain ⟨h1, h2⟩ := hq e hre
    exact ⟨by omega, h2⟩

def c6Cfg : ProxyPoolConfig :=
  { retry_count := 0, selection_strategy := ProxySelectionStrategy.RoundRobin }

def c6P : Proxy :=
  { url := "u6", status := ProxyStatus.Healthy, success_count := 0,
    failure_count := 0, response_time := none }

def c6Out : Nat → AttemptOutcome := fun _ => AttemptOutcome.executionError 7

def c6Res : HandleResult :=
  { result := Except.error (HandleError.reqwestErr 7),
    state := PoolState.mk [{ c6P with failure_count := 1 }] 0,
    trace := { tokens := ["u6"], failures := [("u6", 7)], successes := [] } }

/-- Concrete evaluation of the dispatch loop: retry_count 0, one healthy
proxy, execution failure with error 7 on the single attempt. -/
theorem c6_handle_eval :
    handle c6Cfg true c6Out (fun _ => 0) (PoolState.mk [c6P] 0) = some c6Res := by
  norm_num [handle, handleLoop, get_proxy, healthyProxies, report_proxy_failure,
    demotionCond, c6Cfg, c6P, c6Out, c6Res]

/-- Witness for C6: at the concrete run above the single failure is
recorded and the surfaced error is the error of that final attempt. -/
theorem C6_witness :
    c6Res.trace.failures.length = c6Cfg.retry_count + 1
    ∧ c6Res.trace.failures.getLast?.map Prod.snd = some 7 :=
  ((C6_handle_retry_bound c6Cfg true c6Out (fun _ => 0)
      (PoolState.mk [c6P] 0)).2 c6Res c6_handle_eval).2 7 rfl

/-- C7: when the request body is not replayable (try_clone fails),
handle fails on its very first iteration with a non-retryable error —
the non-cloneable middleware error, or NoProxyAvailable when the healthy
subset is empty, since the source draws a proxy before the clone check —
and no retry attempt is consumed, no rate limiter token is acquired,
report_proxy_failure is never called on any proxy, and every proxy
record is left unchanged. -/
theorem C7_non_replayable (cfg : ProxyPoolConfig)
    (outcomes : Nat → AttemptOutcome) (rand : Nat → Nat) (st : PoolState) :
    ∃ res, handle cfg false outcomes rand st = some res
      ∧ (res.result = Except.error HandleError.nonReplayable
         ∨ res.result = Except.error HandleError.noProxyAvailable)
      ∧ res.trace.tokens = []
      ∧ res.trace.failures = []
      ∧ res.trace.successes = []
      ∧ res.state.proxies = st.proxies := by
  rw [handle, handleLoop]
  cases hgp : get_proxy cfg.selection_strategy (rand 0) st with
  | error err =>
    exact ⟨_, rfl, Or.inr rfl, rfl, rfl, rfl, rfl⟩
  | ok pr =>
    obtain ⟨proxy, idx⟩ := pr
    exact ⟨_, rfl, Or.inl rfl, rfl, rfl, rfl, rfl⟩

end ProxyPoolSpec
